import Mathlib

/-! # Verification of the DB-AGENT repository core

Shallow embedding of `src/agent.py`, `src/ingestion.py` and the
orchestration in `App/main.py`.  External systems (the PostgreSQL engine,
the Qdrant vector store, the embedding model, the language model) are
modelled as oracle records of total functions; fallible engine calls
return `Except`.  Side effects are made observable as explicit call
traces or explicit store states.  Python strings are modelled as Lean
`String` / `List Char`.

The file is organised as definitions first (the embedding), then
theorems (library lemmas about the embedding, followed by one theorem
per specification claim together with its witnesses and
counterexamples).
-/

namespace DBAgent

/-! ## Python string primitives used by the source -/

/-- Whitespace test used by Python `str.strip` (modelled by `Char.isWhitespace`). -/
def isWS (c : Char) : Bool := c.isWhitespace

/-- Drop leading and trailing whitespace from a character list. -/
def stripChars (l : List Char) : List Char :=
  ((l.dropWhile isWS).reverse.dropWhile isWS).reverse

/-- Python `str.strip()`, as called in `run_sql_query` (`sql = user_sql.strip()`)
and `run_question_query` (`generated_sql = sql_response.content.strip()`). -/
def pyStrip (s : String) : String := String.mk (stripChars s.data)

/-! ## JSON serialization (`json.dumps(rows, default=str)` in `postgres_query`)

A row fetched from the engine is modelled as an association list of
column name / displayed value (the `default=str` conversion renders every
value as a string).  The serializer below reproduces `json.dumps`'s default
separators `", "` and `": "`; escaping inside strings is not modelled, which
only affects rows we never need to distinguish. -/

/-- A result row: column name and stringified value pairs. -/
def Row : Type := List (String × String)

instance : DecidableEq Row := by unfold Row; infer_instance

/-- Join strings with the `", "` separator of `json.dumps`. -/
def joinComma : List String → String
  | [] => ""
  | [s] => s
  | s :: t :: rest => s ++ (", ") ++ joinComma (t :: rest)

/-- A JSON string literal (escaping not modelled). -/
def jsonStr (s : String) : String := ("\"") ++ s ++ ("\"")

/-- One serialized row object. -/
def jsonRow (r : Row) : String :=
  ("\x7b") ++ joinComma (r.map (fun p => jsonStr p.1 ++ (": ") ++ jsonStr p.2)) ++ ("\x7d")

/-- `json.dumps` of the fetched row list. -/
def jsonDumps (rows : List Row) : String :=
  ("[") ++ joinComma (rows.map jsonRow) ++ ("]")

/-! ## `agent.py`: the database connection oracle and TOOL 1 -/

/-- The engine obtained by `get_postgres_engine(env)`, specified only through
its interface (spec section 6): a plan-only check `EXPLAIN sql` and real
execution of `sql`, each either succeeding or failing with an engine message,
plus the live `information_schema.columns` catalog used by
`run_question_query` (rows of schema, table, column).  Engine acquisition
itself is supplied by the external configuration resolver and is modelled
as total. -/
structure DBConn where
  explain : String → Except String Unit
  exec : String → Except String (List Row)
  catalog : List (String × String × String)

/-- The engine-error string built by `postgres_query`'s `except` branch. -/
def dbErrMsg (e : String) : String := ("DB error: ") ++ e

/-- TOOL 1, `postgres_query(sql, environment)`: run the SQL, serialize the
fetched rows with `json.dumps`, and turn any engine exception into the
`"DB error: ..."` string (the `try` wraps every engine interaction). -/
def postgres_query (db : DBConn) (sql : String) : String :=
  match db.exec sql with
  | .ok rows => jsonDumps rows
  | .error e => dbErrMsg e

/-! ## `agent.py`: strict SQL mode and question mode

Each mode returns a message string built from f-string templates in the
source.  The embedding additionally records, next to the output string,
which `return` statement produced it (`Phase`) and the list of SQL texts
passed to real execution (`postgres_query` calls); the plan-only `EXPLAIN`
is not a row-level effect and is not recorded in `executed`. -/

/-- Which of the three terminal return statements of a mode was taken. -/
inductive Phase where
  | synError
  | empRes
  | okRes
deriving DecidableEq

/-- Result of one strict-mode or question-mode call: the returned string,
the return site, and the SQL texts really executed. -/
structure SqlRun where
  output : String
  phase : Phase
  executed : List String
deriving DecidableEq

/-- f-string pieces of `run_sql_query`'s error return. -/
def synErrHead : String := "❌ Syntax Error Detected\n\nYour SQL:\n"

def synErrMid : String := "\n\nError:\n"

/-- `run_sql_query`'s syntax-error message. -/
def synErrMsg (sql err : String) : String := synErrHead ++ sql ++ synErrMid ++ err

/-- f-string pieces of `run_sql_query`'s zero-row return. -/
def empHead : String := "✅ Query Valid (No Syntax Errors)\n\nExecuted SQL:\n"

def empTail : String := "\n\nNo rows returned."

/-- `run_sql_query`'s zero-row message. -/
def empMsg (sql : String) : String := empHead ++ sql ++ empTail

/-- f-string pieces of `run_sql_query`'s final return. -/
def okHead : String := "✅ Query Valid\n\nExecuted SQL:\n"

def okMid : String := "\n\nResult:\n"

/-- `run_sql_query`'s result-carrying message. -/
def okMsg (sql result : String) : String := okHead ++ sql ++ okMid ++ result

/-- STRICT SQL MODE, `run_sql_query(user_sql, env)`: strip the input,
validate it with a plan-only `EXPLAIN`, and only on validation success
execute it through `postgres_query`, discriminating the empty result
(`not result or result == "[]"`) from the row-carrying one. -/
def run_sql_query (db : DBConn) (user_sql : String) : SqlRun :=
  let sql := pyStrip user_sql
  match db.explain sql with
  | .error e => ⟨synErrMsg sql e, .synError, []⟩
  | .ok _ =>
    let result := postgres_query db sql
    if result = ("") ∨ result = ("[]") then ⟨empMsg sql, .empRes, [sql]⟩
    else ⟨okMsg sql result, .okRes, [sql]⟩

/-- f-string pieces of `run_question_query`'s messages. -/
def genInvHead : String := "❌ Generated SQL Invalid\n\nGenerated SQL:\n"

def genInvMid : String := "\n\nError:\n"

/-- `run_question_query`'s validation-failure message. -/
def genInvMsg (sql err : String) : String := genInvHead ++ sql ++ genInvMid ++ err

def genHead : String := "Generated SQL:\n"

def genEmpTail : String := "\n\nNo rows returned."

/-- `run_question_query`'s zero-row message. -/
def genEmpMsg (sql : String) : String := genHead ++ sql ++ genEmpTail

def genOkMid : String := "\n\nResult:\n"

/-- `run_question_query`'s result-carrying message. -/
def genOkMsg (sql result : String) : String := genHead ++ sql ++ genOkMid ++ result

/-- The `schema.table.column` identifier list built from the live catalog. -/
def schemaStrings (db : DBConn) : List String :=
  db.catalog.map (fun r => r.1 ++ (".") ++ r.2.1 ++ (".") ++ r.2.2)

/-- Python `str` of the identifier list, as interpolated into the prompt. -/
def listRepr (l : List String) : String :=
  ("[") ++ joinComma (l.map (fun s => ("'") ++ s ++ ("'"))) ++ ("]")

def promptHead : String := "\nYou are a PostgreSQL SQL generator.\n\nSTRICT RULES:\n- Use ONLY available tables.\n- Do NOT hallucinate.\n- If asking about tables -> query information_schema.\n- Return ONLY SQL.\n- No markdown.\n- No explanations.\n\nUser Question:\n"

def promptMid : String := "\n\nAvailable Schema:\n"

/-- The fixed SQL-generation prompt of `run_question_query`. -/
def sqlPrompt (question : String) (schema_list : List String) : String :=
  promptHead ++ question ++ promptMid ++ listRepr schema_list ++ ("\n")

/-- The SQL text the language model's answer is reduced to inside
`run_question_query` (`sql_response.content.strip()`). -/
def generatedSqlFor (db : DBConn) (llm : String → String) (user_question : String) : String :=
  pyStrip (llm (sqlPrompt user_question (schemaStrings db)))

/-- QUESTION MODE, `run_question_query(user_question, env)`: fetch the live
catalog, prompt the language model, strip its answer, then validate with a
plan-only `EXPLAIN` and execute only on success, with the same
empty-versus-ok test as strict mode.  The model is an oracle
`prompt ↦ completion content`. -/
def run_question_query (db : DBConn) (llm : String → String) (user_question : String) : SqlRun :=
  let generated_sql := generatedSqlFor db llm user_question
  match db.explain generated_sql with
  | .error e => ⟨genInvMsg generated_sql e, .synError, []⟩
  | .ok _ =>
    let result := postgres_query db generated_sql
    if result = ("") ∨ result = ("[]") then ⟨genEmpMsg generated_sql, .empRes, [generated_sql]⟩
    else ⟨genOkMsg generated_sql result, .okRes, [generated_sql]⟩

/-! ## `ingestion.py`: query-template normalization (`ingest_queries`)

The per-item normalization is: `sqlparse.format(template,
strip_comments=True, keyword_case="upper")`, then three `re.sub` calls:
remove `\b\w+\.` (schema qualification), replace `\d+` by `?`, replace
`'[^']*'` by `?`.  The regex passes are embedded exactly (leftmost,
non-overlapping, greedy); the external `sqlparse.format` call is modelled
below by `fmtStrip`. -/

/-- Python regex `\w` on the ASCII fragment: letters, digits, underscore. -/
def isWordChar (c : Char) : Bool := c.isAlphanum || c = '_'

/-- SQL keywords recognised for `keyword_case="upper"` in the
`sqlparse.format` model. -/
def kwList : List String := [("select"), ("from"), ("where"), ("and"), ("or"), ("not"), ("insert"), ("into"), ("values"), ("update"), ("set"), ("delete"), ("join"), ("inner"), ("left"), ("right"), ("outer"), ("on"), ("group"), ("by"), ("order"), ("limit"), ("having"), ("distinct"), ("union"), ("as"), ("null"), ("is"), ("in"), ("like"), ("between"), ("create"), ("table"), ("drop"), ("alter")]

/-- Uppercase a completed word run when it is a recognised keyword. -/
def flushRun (run : List Char) : List Char :=
  if kwList.contains (String.mk (run.map Char.toLower)) then run.map Char.toUpper else run

/-- Scanner mode for the `sqlparse.format` model: ordinary text, inside a
string literal, inside a `--` line comment, inside a `/* */` comment. -/
inductive FMode where
  | norm
  | instr
  | lineC
  | blockC

/-- Scanner of the `sqlparse.format` model.  The second argument is the
pending word run (used only in `norm` mode).  String literals are copied
verbatim, `--` comments are dropped up to the newline, block comments are
dropped entirely, word runs that spell a keyword are uppercased. -/
def fmtAux : FMode → List Char → List Char → List Char
  | .norm, run, [] => flushRun run
  | .norm, run, '\'' :: cs => flushRun run ++ '\'' :: fmtAux .instr [] cs
  | .norm, run, '-' :: '-' :: cs2 => flushRun run ++ fmtAux .lineC [] cs2
  | .norm, run, '/' :: '*' :: cs2 => flushRun run ++ fmtAux .blockC [] cs2
  | .norm, run, c :: cs =>
    if isWordChar c then fmtAux .norm (run ++ [c]) cs
    else flushRun run ++ c :: fmtAux .norm [] cs
  | .instr, _, [] => []
  | .instr, _, '\'' :: cs => '\'' :: fmtAux .norm [] cs
  | .instr, _, c :: cs => c :: fmtAux .instr [] cs
  | .lineC, _, [] => []
  | .lineC, _, '\n' :: cs => '\n' :: fmtAux .norm [] cs
  | .lineC, _, _ :: cs => fmtAux .lineC [] cs
  | .blockC, _, [] => []
  | .blockC, _, '*' :: '/' :: cs2 => fmtAux .norm [] cs2
  | .blockC, _, _ :: cs => fmtAux .blockC [] cs

/-- Model of the external library call `sqlparse.format(q,
strip_comments=True, keyword_case="upper")`: strip `--` line comments and
`/* */` block comments occurring outside string literals, and uppercase
recognised keywords.  The library is not part of this repository; this
model follows its documented contract (and the spec's words: strip
comments and standardize keyword casing). -/
def fmtStrip (s : String) : String := String.mk (fmtAux .norm [] s.data)

/-- One pass of `re.sub(r'\b\w+\.', '', s)`: every maximal word-character
run that is immediately followed by `'.'` is removed together with the
dot.  A maximal run is always preceded by a non-word character or the
string start, so the `\b` anchor holds exactly at run starts; the first
argument is the pending run. -/
def stripQualAux : List Char → List Char → List Char
  | run, [] => run
  | run, c :: cs =>
    if isWordChar c then stripQualAux (run ++ [c]) cs
    else if c = '.' ∧ run ≠ [] then stripQualAux [] cs
    else run ++ c :: stripQualAux [] cs

/-- `re.sub(r'\b\w+\.', '', s)` on a character list. -/
def stripQual (l : List Char) : List Char := stripQualAux [] l

/-- Adjacent-pair invariant characterising texts without a `\b\w+\.`
match: no word character is immediately followed by a dot (if one were,
the maximal word run ending there would start at a word boundary and be
followed by the dot). -/
def okPair (a b : Char) : Prop := ¬(isWordChar a = true ∧ b = '.')

/-- `re.sub(r"\d+", "?", s)`: each maximal digit run becomes one `'?'`.
The flag records whether the previous character was a digit of the run
currently being replaced. -/
def squashDigits : Bool → List Char → List Char
  | _, [] => []
  | inRun, c :: cs =>
    if c.isDigit then
      if inRun then squashDigits true cs else '?' :: squashDigits true cs
    else c :: squashDigits false cs

/-- `re.sub(r"'[^']*'", "?", s)`: each quote pair with no quote between
becomes one `'?'`; a quote with no later closing quote is left as is.
`some seg` means a quote was opened and `seg` collects the characters
seen since. -/
def squashQuotes : Option (List Char) → List Char → List Char
  | none, [] => []
  | some seg, [] => '\'' :: seg
  | none, c :: cs =>
    if c = '\'' then squashQuotes (some []) cs else c :: squashQuotes none cs
  | some seg, c :: cs =>
    if c = '\'' then '?' :: squashQuotes none cs else squashQuotes (some (seg ++ [c]))  cs

/-- The per-template normalization performed inside `ingest_queries`:
format (comment stripping, keyword uppercasing), then schema-prefix
removal, then numeric-literal replacement, then string-literal
replacement. -/
def normalize (q : String) : String :=
  String.mk (squashQuotes none (squashDigits false (stripQual (fmtStrip q).data)))

/-- `ingest_queries(queries_list, env)`: the `queries` store keyed by the
unique `query_name`; `ON CONFLICT DO NOTHING` skips an already-present
name.  Each entry is (name, normalized template). -/
def ingest_queries (store : List (String × String)) (queries_list : List (String × String)) : List (String × String) :=
  queries_list.foldl
    (fun st q => if st.any (fun p => p.1 == q.1) then st else st ++ [(q.1, normalize q.2)]) store

/-! ## `ingestion.py`: metadata sync (`ingest_metadata_from_postgres`)

The live introspection result is a list of `information_schema.columns`
rows; `tables_metadata` is the store, with the 6-column uniqueness key and
`ON CONFLICT DO NOTHING` insertion.  `auto_ingest_pipeline` deletes every
stored row before re-ingesting. -/

/-- One introspected row of `information_schema.columns`. -/
structure ColInfo where
  table_schema : String
  table_name : String
  column_name : String
  data_type : String
  nullable : Bool
  column_default : Option String
deriving DecidableEq

/-- One row of `tables_metadata`. -/
structure MetaRow where
  project_name : String
  database_name : String
  environment : String
  table_schema : String
  table_name : String
  column_name : String
  data_type : String
  nullable : Bool
  default_value : Option String
deriving DecidableEq

/-- The `UNIQUE(project_name, database_name, environment, table_schema,
table_name, column_name)` key of `tables_metadata`. -/
def metaKey (r : MetaRow) : String × String × String × String × String × String :=
  (r.project_name, r.database_name, r.environment, r.table_schema, r.table_name, r.column_name)

/-- The part of the key that varies over one introspection run. -/
def colKey (c : ColInfo) : String × String × String :=
  (c.table_schema, c.table_name, c.column_name)

/-- The parameter binding of the `INSERT INTO tables_metadata` statement. -/
def toMetaRow (project db_name env : String) (c : ColInfo) : MetaRow :=
  ⟨project, db_name, env, c.table_schema, c.table_name, c.column_name,
    c.data_type, c.nullable, c.column_default⟩

/-- `INSERT ... ON CONFLICT DO NOTHING` against the uniqueness key. -/
def insertMetaRow (store : List MetaRow) (r : MetaRow) : List MetaRow :=
  if ∃ x ∈ store, metaKey x = metaKey r then store else store ++ [r]

/-- `ingest_metadata_from_postgres(env)`: insert every introspected column
row (excluding system schemas, already excluded in `introspected`) into the
store with conflict-skip semantics. -/
def ingest_metadata_from_postgres (project db_name env : String)
    (introspected : List ColInfo) (store : List MetaRow) : List MetaRow :=
  introspected.foldl (fun st c => insertMetaRow st (toMetaRow project db_name env c)) store

/-- The sync step of `auto_ingest_pipeline`: `DELETE FROM tables_metadata`
followed by `ingest_metadata_from_postgres(env)`. -/
def auto_sync_metadata (project db_name env : String) (introspected : List ColInfo) : List MetaRow :=
  ingest_metadata_from_postgres project db_name env introspected []

/-! ## `ingestion.py`: evidence collection (`generate_evidence`) -/

/-- External facts consulted by `generate_evidence`: which schema contains
the anchor table `tenders` (the `information_schema.tables` probe), and
the plan-only `EXPLAIN` of a substituted template (plan rows are the
stringified row mappings scanned for anti-pattern markers). -/
structure EvOracle where
  schemaFor : Option String
  explainPlan : String → Except String (List String)

/-- One row of `execution_evidence`. -/
structure EvidenceRow where
  query_id : Nat
  explain_output : List String
  anti_patterns : List String
deriving DecidableEq

/-- The relational state touched by evidence collection: the `queries`
table (id, normalized_template) and the `execution_evidence` table. -/
structure EvState where
  queries : List (Nat × String)
  evidence : List EvidenceRow
deriving DecidableEq

/-- `SELECT normalized_template FROM queries WHERE id=:id` + `fetchone`. -/
def lookupQuery (st : EvState) (query_id : Nat) : Option String :=
  (st.queries.find? (fun p => p.1 == query_id)).map (fun p => p.2)

/-- `template.replace("?", "'test'")`. -/
def substPlaceholders (t : String) : String :=
  String.mk (t.data.flatMap (fun c => if c = '?' then ("'test'").data else [c]))

/-- Whether `pat` is an initial segment of `l`. -/
def startsWithChars : List Char → List Char → Bool
  | [], _ => true
  | _ :: _, [] => false
  | p :: ps, c :: cs => p == c && startsWithChars ps cs

/-- Python's substring test `pat in s` on character lists. -/
def containsSub (pat : List Char) : List Char → Bool
  | [] => startsWithChars pat []
  | c :: cs => startsWithChars pat (c :: cs) || containsSub pat cs

/-- The `"Seq Scan" in str(row)` test of the anti-pattern scan. -/
def seqScanIn (row : String) : Bool := containsSub (("Seq Scan").data) row.data

/-- The anti-pattern scan of `generate_evidence`: the loop appends the
`"sequential_scan"` tag once for every plan row containing the marker. -/
def detectAntiPatterns (plan : List String) : List String :=
  plan.foldl (fun acc row => if seqScanIn row then acc ++ [("sequential_scan")] else acc) []

/-- `generate_evidence(query_id, env)`: abort silently when the anchor
table resolves to no schema, when the query id is absent, or when the
plan-only check fails; otherwise append exactly one `execution_evidence`
row holding the plan and the detected anti-pattern tags. -/
def generate_evidence (ora : EvOracle) (st : EvState) (query_id : Nat) : EvState :=
  match ora.schemaFor with
  | none => st
  | some _ =>
    match lookupQuery st query_id with
    | none => st
    | some tmpl =>
      match ora.explainPlan (substPlaceholders tmpl) with
      | .error _ => st
      | .ok plan =>
        { st with evidence := st.evidence ++ [⟨query_id, plan, detectAntiPatterns plan⟩] }

/-- The batch loop of `auto_ingest_pipeline`:
`for qid in df["id"].tolist(): generate_evidence(qid, env)`. -/
def runEvidenceBatch (ora : EvOracle) (st : EvState) (ids : List Nat) : EvState :=
  ids.foldl (generate_evidence ora) st

/-- The three per-item failure conditions of `generate_evidence`. -/
def collectFails (ora : EvOracle) (st : EvState) (query_id : Nat) : Bool :=
  match ora.schemaFor with
  | none => true
  | some _ =>
    match lookupQuery st query_id with
    | none => true
    | some tmpl =>
      match ora.explainPlan (substPlaceholders tmpl) with
      | .error _ => true
      | .ok _ => false

/-! ## `ingestion.py`: vector-store ingestion (`ingest_to_qdrant`) -/

/-- A chunk handed to `ingest_to_qdrant`; a missing `content_text` key and
an empty string are both falsy in `chunk.get("content_text")` and are
modelled uniformly as the empty string. -/
structure Chunk where
  content_text : String
deriving DecidableEq

/-- Observable interactions with the embedding model and the vector
store: ensuring the collection exists, encoding one text, and the single
batch upsert (points identified by their content text; ids are fresh
UUIDs). -/
inductive QCall where
  | ensure
  | embed (content : String)
  | upsert (points : List String)
deriving DecidableEq

/-- The contents surviving the `if not chunk.get("content_text"): continue`
filter, in order. -/
def validContents (chunks : List Chunk) : List String :=
  (chunks.filter (fun c => !(c.content_text == ("")))).map (fun c => c.content_text)

/-- `ingest_to_qdrant(chunks, env)` as its trace of external calls: an
empty chunk list returns after a warning with no external contact at all;
otherwise the collection is ensured, each valid chunk is embedded, and a
single batch upsert is issued unless no valid point remains. -/
def ingest_to_qdrant (chunks : List Chunk) : List QCall :=
  if chunks = [] then []
  else
    (QCall.ensure :: (validContents chunks).map QCall.embed)
      ++ (if validContents chunks = [] then [] else [QCall.upsert (validContents chunks)])

/-- The upsert calls of a trace, with their point batches. -/
def upsertCalls (trace : List QCall) : List (List String) :=
  trace.filterMap (fun call => match call with | .upsert p => some p | _ => none)

/-! ## Concrete fixtures used by witnesses and counterexamples -/

/-- A concrete engine: `SELECT 1` explains and executes to one row,
`SELECT nothing` explains but returns zero rows, everything else fails
the plan-only check. -/
def dbWitness : DBConn where
  explain := fun s =>
    if s = ("SELECT 1") ∨ s = ("SELECT nothing") then .ok ()
    else .error (("syntax error at or near ") ++ s)
  exec := fun s =>
    if s = ("SELECT 1") then .ok [[(("?column?"), ("1"))]]
    else if s = ("SELECT nothing") then .ok []
    else .error ("relation does not exist")
  catalog := [(("public"), ("items"), ("id")), (("public"), ("items"), ("name"))]

/-- A language model stub answering every prompt with padded `SELECT 1`. -/
def llmWitness : String → String := fun _ => (" SELECT 1 ")

/-- Evidence oracle whose plan holds two sequential-scan rows. -/
def evOracleSeq : EvOracle where
  schemaFor := some ("public")
  explainPlan := fun _ =>
    .ok [("Seq Scan on tenders  (cost=0.00..1.10 rows=10 width=4)"),
         ("Seq Scan on bids  (cost=0.00..2.20 rows=20 width=8)")]

/-- Evidence oracle that finds no schema containing the anchor table. -/
def evOracleNoSchema : EvOracle where
  schemaFor := none
  explainPlan := fun _ => .ok []

/-- Evidence oracle whose plan-only check always fails. -/
def evOracleBadPlan : EvOracle where
  schemaFor := some ("public")
  explainPlan := fun _ => .error ("relation does not exist")

/-- A queries table holding one template, with empty evidence. -/
def evStateOne : EvState where
  queries := [(1, ("SELECT * FROM tenders WHERE status = ?"))]
  evidence := []

/-- Scenario A introspection fixture: `public.items(id int, name text not null)`. -/
def itemsCols : List ColInfo :=
  [⟨("public"), ("items"), ("id"), ("integer"), true, none⟩,
   ⟨("public"), ("items"), ("name"), ("text"), false, none⟩]

/-- A chunk list with two valid and one empty chunk. -/
def chunksWitness : List Chunk :=
  [⟨("Table: public.items Column: id")⟩, ⟨("")⟩, ⟨("Table: public.items Column: name")⟩]

/-- A non-empty chunk list whose chunks all have empty content. -/
def chunksAllEmpty : List Chunk := [⟨("")⟩, ⟨("")⟩]

/-- A normalization input whose normalized form is a fixed point of the
format step. -/
def normFix : String := "SELECT x FROM t WHERE y = 5 AND z = 'abc'"

/-! # Theorems

Library lemmas about the embedding, then one theorem per claim. -/

/-! ## String stripping -/

theorem dropWhile_dropWhile (p : Char → Bool) (l : List Char) :
    (l.dropWhile p).dropWhile p = l.dropWhile p := by
  induction l with
  | nil => rfl
  | cons c cs ih =>
    cases hp : p c with
    | true => simpa [List.dropWhile_cons, hp] using ih
    | false => simp [List.dropWhile_cons, hp]

theorem dropWhile_head_false (p : Char → Bool) :
    ∀ (l : List Char) (c : Char) (t : List Char), l.dropWhile p = c :: t → p c = false := by
  intro l
  induction l with
  | nil => intro c t h; simp at h
  | cons a l ih =>
    intro c t h
    cases hp : p a with
    | true => exact ih c t (by simpa [List.dropWhile_cons, hp] using h)
    | false =>
      rw [List.dropWhile_cons, hp] at h
      simp only [Bool.false_eq_true, if_false] at h
      cases h; exact hp

theorem stripChars_idem (l : List Char) : stripChars (stripChars l) = stripChars l := by
  unfold stripChars
  set l1 := l.dropWhile isWS with hl1
  set r := l1.reverse.dropWhile isWS with hr
  have hpre : r.reverse <+: l1 := by
    have hsuf : r <:+ l1.reverse := by
      rw [hr]; exact List.dropWhile_suffix isWS
    have := List.reverse_prefix.mpr hsuf
    simpa using this
  have hA : r.reverse.dropWhile isWS = r.reverse := by
    cases hrev : r.reverse with
    | nil => simp
    | cons c t =>
      obtain ⟨u, hu⟩ := hpre
      rw [hrev] at hu
      have hc : isWS c = false := by
        apply dropWhile_head_false isWS l c (t ++ u)
        rw [← hl1, ← hu]; simp
      simp [List.dropWhile_cons, hc]
  rw [hA, List.reverse_reverse, hr, dropWhile_dropWhile]

theorem pyStrip_idem (s : String) : pyStrip (pyStrip s) = pyStrip s :=
  congrArg String.mk (stripChars_idem s.data)

/-! ## JSON serialization -/

theorem jsonRow_len (r : Row) : 2 ≤ (jsonRow r).length := by
  show 2 ≤ (("\x7b") ++ joinComma (r.map (fun p => jsonStr p.1 ++ (": ") ++ jsonStr p.2)) ++ ("\x7d")).length
  rw [String.length_append, String.length_append]
  have h1 : (("\x7b" : String)).length = 1 := rfl
  have h2 : (("\x7d" : String)).length = 1 := rfl
  rw [h1, h2]
  omega

theorem joinComma_len (s : String) (l : List String) :
    s.length ≤ (joinComma (s :: l)).length := by
  cases l with
  | nil => simp [joinComma]
  | cons t rest =>
    show s.length ≤ (s ++ (", ") ++ joinComma (t :: rest)).length
    rw [String.length_append, String.length_append]
    omega

theorem jsonDumps_eq_nil_iff (rows : List Row) : jsonDumps rows = ("[]") ↔ rows = [] := by
  constructor
  · intro h
    cases rows with
    | nil => rfl
    | cons r rs =>
      exfalso
      have hlen := congrArg String.length h
      unfold jsonDumps at hlen
      rw [String.length_append, String.length_append] at hlen
      have h1 : 2 ≤ (jsonRow r).length := jsonRow_len r
      have h2 : (jsonRow r).length ≤ (joinComma ((r :: rs).map jsonRow)).length := by
        simpa using joinComma_len (jsonRow r) (rs.map jsonRow)
      have h3 : (("[]" : String)).length = 2 := rfl
      have h4 : (("[" : String)).length = 1 := rfl
      have h5 : (("]" : String)).length = 1 := rfl
      rw [h3, h4, h5] at hlen
      omega
  · intro h; subst h; rfl

theorem jsonDumps_head (rows : List Row) : (jsonDumps rows).data.head? = some '[' := by
  unfold jsonDumps
  rw [String.data_append, String.data_append]
  rfl

theorem string_nil_head : (("") : String).data.head? = none := rfl

theorem string_brackets_head : (("[]") : String).data.head? = some '[' := rfl

theorem jsonDumps_ne_empty_string (rows : List Row) : jsonDumps rows ≠ ("") := by
  intro h
  have h2 : (jsonDumps rows).data.head? = (("") : String).data.head? := by rw [h]
  rw [jsonDumps_head, string_nil_head] at h2
  exact Option.noConfusion h2

theorem dbErrMsg_head (e : String) : (dbErrMsg e).data.head? = some 'D' := rfl

theorem dbErrMsg_ne_jsonDumps (rows : List Row) (e : String) :
    jsonDumps rows ≠ dbErrMsg e := by
  intro h
  have h2 : (jsonDumps rows).data.head? = (dbErrMsg e).data.head? := by rw [h]
  rw [jsonDumps_head, dbErrMsg_head] at h2
  simp at h2

theorem dbErrMsg_ne_empty_string (e : String) : dbErrMsg e ≠ ("") := by
  intro h
  have h2 : (dbErrMsg e).data.head? = (("") : String).data.head? := by rw [h]
  rw [dbErrMsg_head, string_nil_head] at h2
  exact Option.noConfusion h2

theorem dbErrMsg_ne_nil_json (e : String) : dbErrMsg e ≠ ("[]") := by
  intro h
  have h2 : (dbErrMsg e).data.head? = (("[]") : String).data.head? := by rw [h]
  rw [dbErrMsg_head, string_brackets_head] at h2
  simp at h2

/-! ## Distinctness of the strict-mode message shapes

`empHead` and `okHead` differ at character index 13 (a space opening
`" (No"` versus the first `'\n'`), so messages built from them can never
coincide, whatever the interpolated strings are. -/

theorem empMsg_char13 (sql : String) : ((empMsg sql).data.drop 13).head? = some ' ' := by
  show ((empHead ++ sql ++ empTail).data.drop 13).head? = some ' '
  rw [String.data_append, String.data_append, List.append_assoc]
  rfl

theorem okMsg_char13 (sql r : String) : ((okMsg sql r).data.drop 13).head? = some '\n' := by
  show ((okHead ++ sql ++ okMid ++ r).data.drop 13).head? = some '\n'
  rw [String.data_append, String.data_append, String.data_append,
    List.append_assoc, List.append_assoc]
  rfl

theorem empMsg_ne_okMsg (sql sql' r : String) : empMsg sql ≠ okMsg sql' r := by
  intro h
  have h2 : ((empMsg sql).data.drop 13).head? = ((okMsg sql' r).data.drop 13).head? := by rw [h]
  rw [empMsg_char13, okMsg_char13] at h2
  simp at h2

/-- Appending to a fixed front string is injective in the tail. -/
theorem string_append_tail_inj (s : String) (a b : String) (h : s ++ a = s ++ b) : a = b := by
  have hd : s.data ++ a.data = s.data ++ b.data := by
    have := congrArg String.data h
    rwa [String.data_append, String.data_append] at this
  have h3 := List.append_cancel_left hd
  cases a; cases b; exact congrArg String.mk h3

theorem okMsg_payload_inj (sql a b : String) (h : okMsg sql a = okMsg sql b) : a = b := by
  unfold okMsg at h
  rw [String.append_assoc, String.append_assoc, String.append_assoc, String.append_assoc] at h
  exact string_append_tail_inj _ _ _
    (string_append_tail_inj _ _ _ (string_append_tail_inj _ _ _ h))

/-! ## Claims C1, C2, C9, C8: the validate-then-execute protocol -/

/-- Claim C1: for every SQL string whose plan-only check (EXPLAIN) fails,
`run_sql_query` returns the syntax-error result carrying the validated SQL
text (the whitespace-stripped submission, which is exactly the string sent
to the plan-only check) and the underlying engine error text, and the
execute phase is never entered, so the list of really executed statements
is empty and no row-level side effect occurs. -/
theorem C1_explain_failure_is_safe (db : DBConn) (user_sql e : String)
    (h : db.explain (pyStrip user_sql) = .error e) :
    run_sql_query db user_sql = ⟨synErrMsg (pyStrip user_sql) e, .synError, []⟩ := by
  simp only [run_sql_query, h]

/-- Witness for C1 at a concrete engine and the padded misspelt input
`" SELCT 1 "`. -/
theorem C1_explain_failure_is_safe_witness :
    run_sql_query dbWitness (" SELCT 1 ")
      = ⟨synErrMsg (pyStrip (" SELCT 1 "))
          (("syntax error at or near ") ++ pyStrip (" SELCT 1 ")), .synError, []⟩ :=
  C1_explain_failure_is_safe dbWitness (" SELCT 1 ") _ (by rfl)

/-- Claim C2: for every SQL string that passes validation, the result is the
`empty_result` message exactly when real execution succeeded with zero rows;
when execution succeeded with at least one row the result is the ok message
carrying the serialized row set; and when real execution fails after
validation passed the failure is surfaced inside the returned message as the
engine text `DB error: ...`, and that message differs both from the
`empty_result` message and from every ok message carrying a row set. -/
theorem C2_exec_outcome_classification (db : DBConn) (user_sql : String)
    (hv : db.explain (pyStrip user_sql) = .ok ()) :
    ((run_sql_query db user_sql).output = empMsg (pyStrip user_sql)
        ↔ db.exec (pyStrip user_sql) = .ok [])
    ∧ (∀ rows, db.exec (pyStrip user_sql) = .ok rows → rows ≠ [] →
        (run_sql_query db user_sql).output = okMsg (pyStrip user_sql) (jsonDumps rows))
    ∧ (∀ e, db.exec (pyStrip user_sql) = .error e →
        (run_sql_query db user_sql).output = okMsg (pyStrip user_sql) (dbErrMsg e)
        ∧ (run_sql_query db user_sql).output ≠ empMsg (pyStrip user_sql)
        ∧ ∀ rows, (run_sql_query db user_sql).output ≠ okMsg (pyStrip user_sql) (jsonDumps rows)) := by
  cases hexec : db.exec (pyStrip user_sql) with
  | ok rows =>
    cases hrows : decide (rows = []) with
    | true =>
      have hr : rows = [] := of_decide_eq_true hrows
      subst hr
      have hout : (run_sql_query db user_sql).output = empMsg (pyStrip user_sql) := by
        have hnil : jsonDumps ([] : List Row) = ("[]") := rfl
        simp [run_sql_query, hv, postgres_query, hexec, hnil]
      refine ⟨⟨fun _ => rfl, fun _ => hout⟩, ?_, ?_⟩
      · intro rows' hr' hne
        injection hr' with h2
        exact absurd h2.symm hne
      · intro e he
        simp at he
    | false =>
      have hr : rows ≠ [] := of_decide_eq_false hrows
      have hcond : ¬(jsonDumps rows = ("") ∨ jsonDumps rows = ("[]")) := by
        rintro (hc | hc)
        · exact jsonDumps_ne_empty_string rows hc
        · exact hr ((jsonDumps_eq_nil_iff rows).mp hc)
      have hout : (run_sql_query db user_sql).output
          = okMsg (pyStrip user_sql) (jsonDumps rows) := by
        simp [run_sql_query, hv, postgres_query, hexec, hcond]
      refine ⟨⟨fun hemp => ?_, fun hok => ?_⟩, ?_, ?_⟩
      · rw [hout] at hemp
        exact absurd hemp.symm (empMsg_ne_okMsg _ _ _)
      · injection hok with h2
        exact absurd h2 hr
      · intro rows' hr' _
        injection hr' with h2
        subst h2
        exact hout
      · intro e he
        simp at he
  | error e =>
    have hcond : ¬(dbErrMsg e = ("") ∨ dbErrMsg e = ("[]")) := by
      rintro (hc | hc)
      · exact dbErrMsg_ne_empty_string e hc
      · exact dbErrMsg_ne_nil_json e hc
    have hout : (run_sql_query db user_sql).output
        = okMsg (pyStrip user_sql) (dbErrMsg e) := by
      simp [run_sql_query, hv, postgres_query, hexec, hcond]
    refine ⟨⟨fun hemp => ?_, fun hok => ?_⟩, ?_, ?_⟩
    · rw [hout] at hemp
      exact absurd hemp.symm (empMsg_ne_okMsg _ _ _)
    · simp at hok
    · intro rows' hr'
      simp at hr'
    · intro e' he'
      injection he' with h2
      subst h2
      refine ⟨hout, ?_, ?_⟩
      · rw [hout]
        intro hc
        exact absurd hc.symm (empMsg_ne_okMsg _ _ _)
      · intro rows hc
        have h3 := hout.symm.trans hc
        exact dbErrMsg_ne_jsonDumps rows _ (okMsg_payload_inj _ _ _ h3).symm

/-- Witness for C2 at a concrete engine and the padded input `" SELECT 1 "`
(validation passes, execution returns one row). -/
theorem C2_exec_outcome_classification_witness :
    ((run_sql_query dbWitness (" SELECT 1 ")).output = empMsg (pyStrip (" SELECT 1 "))
        ↔ dbWitness.exec (pyStrip (" SELECT 1 ")) = .ok [])
    ∧ (∀ rows, dbWitness.exec (pyStrip (" SELECT 1 ")) = .ok rows → rows ≠ [] →
        (run_sql_query dbWitness (" SELECT 1 ")).output
          = okMsg (pyStrip (" SELECT 1 ")) (jsonDumps rows))
    ∧ (∀ e, dbWitness.exec (pyStrip (" SELECT 1 ")) = .error e →
        (run_sql_query dbWitness (" SELECT 1 ")).output
          = okMsg (pyStrip (" SELECT 1 ")) (dbErrMsg e)
        ∧ (run_sql_query dbWitness (" SELECT 1 ")).output ≠ empMsg (pyStrip (" SELECT 1 "))
        ∧ ∀ rows, (run_sql_query dbWitness (" SELECT 1 ")).output
            ≠ okMsg (pyStrip (" SELECT 1 ")) (jsonDumps rows)) :=
  C2_exec_outcome_classification dbWitness (" SELECT 1 ") (by rfl)

/-- Claim C9: `postgres_query` is total at its interface: for every SQL
string and engine it returns either the JSON serialization of the fetched
rows on success or a string beginning with `"DB error: "` followed by the
engine message on failure, and the two forms never coincide. -/
theorem C9_postgres_query_total (db : DBConn) (sql : String) :
    ((∃ rows, db.exec sql = .ok rows ∧ postgres_query db sql = jsonDumps rows)
      ∨ (∃ e, db.exec sql = .error e ∧ postgres_query db sql = dbErrMsg e))
    ∧ ∀ rows e, jsonDumps rows ≠ dbErrMsg e := by
  constructor
  · cases hexec : db.exec sql with
    | ok rows => exact .inl ⟨rows, rfl, by simp [postgres_query, hexec]⟩
    | error e => exact .inr ⟨e, rfl, by simp [postgres_query, hexec]⟩
  · exact dbErrMsg_ne_jsonDumps

/-- Witness for C9 at a concrete engine and SQL string. -/
theorem C9_postgres_query_total_witness :
    ((∃ rows, dbWitness.exec ("SELECT 1") = .ok rows
        ∧ postgres_query dbWitness ("SELECT 1") = jsonDumps rows)
      ∨ (∃ e, dbWitness.exec ("SELECT 1") = .error e
        ∧ postgres_query dbWitness ("SELECT 1") = dbErrMsg e))
    ∧ ∀ rows e, jsonDumps rows ≠ dbErrMsg e :=
  C9_postgres_query_total dbWitness ("SELECT 1")

/-- Claim C8: for every generated SQL string, the question mode's
validate-then-execute behaviour after SQL generation is the strict-mode
protocol applied to that same generated SQL: the same terminal branch is
taken (syntax-error versus empty versus ok discrimination agrees) and the
same real executions are performed. -/
theorem C8_question_mode_reuses_protocol (db : DBConn) (llm : String → String) (q : String) :
    (run_question_query db llm q).phase
        = (run_sql_query db (generatedSqlFor db llm q)).phase
    ∧ (run_question_query db llm q).executed
        = (run_sql_query db (generatedSqlFor db llm q)).executed := by
  have hg : pyStrip (generatedSqlFor db llm q) = generatedSqlFor db llm q :=
    pyStrip_idem (llm (sqlPrompt q (schemaStrings db)))
  cases hE : db.explain (generatedSqlFor db llm q) with
  | error e =>
    simp [run_question_query, run_sql_query, hg, hE]
  | ok u =>
    by_cases hc : postgres_query db (generatedSqlFor db llm q) = ("")
        ∨ postgres_query db (generatedSqlFor db llm q) = ("[]")
    · simp [run_question_query, run_sql_query, hg, hE, hc]
    · simp [run_question_query, run_sql_query, hg, hE, hc]

/-- Witness for C8 at a concrete engine, model stub and question. -/
theorem C8_question_mode_reuses_protocol_witness :
    (run_question_query dbWitness llmWitness ("What tables are available?")).phase
        = (run_sql_query dbWitness
            (generatedSqlFor dbWitness llmWitness ("What tables are available?"))).phase
    ∧ (run_question_query dbWitness llmWitness ("What tables are available?")).executed
        = (run_sql_query dbWitness
            (generatedSqlFor dbWitness llmWitness ("What tables are available?"))).executed :=
  C8_question_mode_reuses_protocol dbWitness llmWitness ("What tables are available?")

/-! ## Normalization: behaviour of the three regex passes

Key fact: a string admits a `\b\w+\.` match exactly when some word
character is immediately followed by a dot, so `okPair`-chained texts are
fixed points of the schema-prefix pass, and both literal-replacement
passes preserve the chain invariant. -/

theorem getLast?_mem_self : ∀ (l : List Char) (x : Char), l.getLast? = some x → x ∈ l := by
  intro l
  induction l with
  | nil => intro x h; simp at h
  | cons a t ih =>
    intro x h
    cases t with
    | nil => simp at h; simp [h]
    | cons b t' =>
      rw [List.getLast?_cons_cons] at h
      exact List.mem_cons_of_mem a (ih x h)

theorem chain_of_all_word (run : List Char) (h : ∀ c ∈ run, isWordChar c = true) :
    List.Chain' okPair run := by
  induction run with
  | nil => simp
  | cons c cs ih =>
    rw [List.chain'_cons']
    refine ⟨?_, ih (fun x hx => h x (List.mem_cons_of_mem c hx))⟩
    intro y hy
    have hy2 : cs.head? = some y := hy
    have hmem : y ∈ cs := by
      cases cs with
      | nil => simp at hy2
      | cons b t => simp at hy2; simp [hy2]
    intro hcon
    have := h y (List.mem_cons_of_mem c hmem)
    rw [hcon.2] at this
    simp [isWordChar] at this

theorem stripQualAux_chain (l : List Char) : ∀ run, (∀ c ∈ run, isWordChar c = true) →
    List.Chain' okPair (stripQualAux run l) := by
  induction l with
  | nil =>
    intro run hrun
    simpa [stripQualAux] using chain_of_all_word run hrun
  | cons c cs ih =>
    intro run hrun
    by_cases hw : isWordChar c = true
    · rw [stripQualAux, if_pos hw]
      apply ih
      intro x hx
      rcases List.mem_append.mp hx with h1 | h1
      · exact hrun x h1
      · simp at h1; rw [h1]; exact hw
    · rw [stripQualAux, if_neg hw]
      by_cases hd : (c = '.' ∧ run ≠ [])
      · rw [if_pos hd]
        apply ih
        simp
      · rw [if_neg hd]
        rw [List.chain'_append]
        refine ⟨chain_of_all_word run hrun, ?_, ?_⟩
        · rw [List.chain'_cons']
          refine ⟨?_, ih [] (by simp)⟩
          intro y _
          intro hcon
          exact hw hcon.1
        · intro x hx y hy
          have hy2 : c = y := by simpa using hy
          subst hy2
          intro hcon
          apply hd
          refine ⟨hcon.2, ?_⟩
          intro hrunnil
          subst hrunnil
          simp at hx

theorem stripQualAux_fix (l : List Char) : ∀ run, (∀ c ∈ run, isWordChar c = true) →
    List.Chain' okPair (run ++ l) → stripQualAux run l = run ++ l := by
  induction l with
  | nil => intro run _ _; simp [stripQualAux]
  | cons c cs ih =>
    intro run hrun hch
    by_cases hw : isWordChar c = true
    · rw [stripQualAux, if_pos hw]
      have h2 : stripQualAux (run ++ [c]) cs = (run ++ [c]) ++ cs := by
        apply ih
        · intro x hx
          rcases List.mem_append.mp hx with h1 | h1
          · exact hrun x h1
          · simp at h1; rw [h1]; exact hw
        · simpa [List.append_assoc] using hch
      rw [h2]
      simp
    · rw [stripQualAux, if_neg hw]
      by_cases hd : (c = '.' ∧ run ≠ [])
      · exfalso
        obtain ⟨hc, hne⟩ := hd
        subst hc
        have h3 := (List.chain'_append.mp hch).2.2
        cases hgl : run.getLast? with
        | none =>
          rw [List.getLast?_eq_none_iff] at hgl
          exact hne hgl
        | some x0 =>
          have hx0 : x0 ∈ run := getLast?_mem_self run x0 hgl
          have := h3 x0 (by simp [hgl]) '.' (by simp)
          exact this ⟨hrun x0 hx0, rfl⟩
      · rw [if_neg hd]
        have hcs : List.Chain' okPair cs :=
          (List.chain'_cons'.mp (List.chain'_append.mp hch).2.1).2
        rw [ih [] (by simp) (by simpa using hcs)]
        simp

theorem stripQual_chain (l : List Char) : List.Chain' okPair (stripQual l) :=
  stripQualAux_chain l [] (by simp)

theorem stripQual_fix (l : List Char) (h : List.Chain' okPair l) : stripQual l = l := by
  have h2 := stripQualAux_fix l [] (by simp) (by simpa using h)
  simpa [stripQual] using h2

theorem squashDigits_head (cs : List Char) (y : Char)
    (h : (squashDigits false cs).head? = some y) : y = '?' ∨ cs.head? = some y := by
  cases cs with
  | nil => simp [squashDigits] at h
  | cons c cs' =>
    by_cases hd : c.isDigit = true
    · left
      rw [squashDigits, if_pos hd] at h
      simp at h
      exact h.symm
    · right
      rw [squashDigits, if_neg hd] at h
      simp at h
      simp [h]

theorem squashDigits_chain (l : List Char) : ∀ b, List.Chain' okPair l →
    List.Chain' okPair (squashDigits b l) := by
  induction l with
  | nil => intro b _; simp [squashDigits]
  | cons c cs ih =>
    intro b hch
    have hjun := (List.chain'_cons'.mp hch).1
    have hcs := (List.chain'_cons'.mp hch).2
    by_cases hd : c.isDigit = true
    · cases b with
      | true =>
        rw [squashDigits, if_pos hd]
        show List.Chain' okPair (squashDigits true cs)
        exact ih true hcs
      | false =>
        rw [squashDigits, if_pos hd]
        show List.Chain' okPair ('?' :: squashDigits true cs)
        rw [List.chain'_cons']
        refine ⟨?_, ih true hcs⟩
        intro y _
        intro hcon
        have : isWordChar '?' = true := hcon.1
        simp [isWordChar] at this
    · rw [squashDigits, if_neg hd]
      rw [List.chain'_cons']
      refine ⟨?_, ih false hcs⟩
      intro y hy
      have hy2 : (squashDigits false cs).head? = some y := hy
      rcases squashDigits_head cs y hy2 with h1 | h1
      · subst h1
        intro hcon
        have : ('?' : Char) = '.' := hcon.2
        simp at this
      · exact hjun y h1

theorem squashDigits_no_digit (l : List Char) : ∀ b c, c ∈ squashDigits b l →
    c.isDigit = false := by
  induction l with
  | nil => intro b c h; simp [squashDigits] at h
  | cons a cs ih =>
    intro b c h
    by_cases ha : a.isDigit = true
    · cases b with
      | true =>
        rw [squashDigits, if_pos ha] at h
        have h2 : c ∈ squashDigits true cs := h
        exact ih true c h2
      | false =>
        rw [squashDigits, if_pos ha] at h
        have h2 : c ∈ '?' :: squashDigits true cs := h
        rcases List.mem_cons.mp h2 with h1 | h1
        · rw [h1]; rfl
        · exact ih true c h1
    · rw [squashDigits, if_neg ha] at h
      rcases List.mem_cons.mp h with h1 | h1
      · rw [h1]; exact Bool.not_eq_true _ ▸ (by simpa using ha)
      · exact ih false c h1

theorem squashDigits_fix (l : List Char) (h : ∀ c ∈ l, c.isDigit = false) :
    squashDigits false l = l := by
  induction l with
  | nil => rfl
  | cons c cs ih =>
    have hc : c.isDigit = false := h c (List.mem_cons_self c cs)
    rw [squashDigits, if_neg (by simp [hc])]
    rw [ih (fun x hx => h x (List.mem_cons_of_mem c hx))]

theorem squashQuotes_some_head (l : List Char) : ∀ seg,
    (squashQuotes (some seg) l).head? = some '?'
      ∨ (squashQuotes (some seg) l).head? = some '\'' := by
  induction l with
  | nil => intro seg; right; simp [squashQuotes]
  | cons c cs ih =>
    intro seg
    by_cases hc : c = '\''
    · left; rw [squashQuotes, if_pos hc]; rfl
    · rw [squashQuotes, if_neg hc]
      exact ih (seg ++ [c])

theorem squashQuotes_none_head (cs : List Char) (y : Char)
    (h : (squashQuotes none cs).head? = some y) :
    y = '?' ∨ y = '\'' ∨ cs.head? = some y := by
  cases cs with
  | nil => simp [squashQuotes] at h
  | cons c cs' =>
    by_cases hc : c = '\''
    · rw [squashQuotes, if_pos hc] at h
      rcases squashQuotes_some_head cs' [] with h1 | h1
      · left; rw [h1] at h; exact (Option.some.inj h).symm
      · right; left; rw [h1] at h; exact (Option.some.inj h).symm
    · rw [squashQuotes, if_neg hc] at h
      right; right
      simp at h
      simp [h]

theorem squashQuotes_chain (l : List Char) : ∀ st,
    (match st with
      | none => List.Chain' okPair l
      | some seg => List.Chain' okPair ('\'' :: (seg ++ l))) →
    List.Chain' okPair (squashQuotes st l) := by
  induction l with
  | nil =>
    intro st h
    cases st with
    | none => simp [squashQuotes]
    | some seg =>
      show List.Chain' okPair ('\'' :: seg)
      simpa using h
  | cons c cs ih =>
    intro st h
    cases st with
    | none =>
      by_cases hc : c = '\''
      · rw [squashQuotes, if_pos hc]
        apply ih (some [])
        show List.Chain' okPair ('\'' :: ([] ++ cs))
        rw [hc] at h
        simpa using h
      · rw [squashQuotes, if_neg hc]
        rw [List.chain'_cons']
        refine ⟨?_, ih none (List.chain'_cons'.mp h).2⟩
        intro y hy
        have hy2 : (squashQuotes none cs).head? = some y := hy
        rcases squashQuotes_none_head cs y hy2 with h1 | h1 | h1
        · subst h1
          intro hcon
          have : ('?' : Char) = '.' := hcon.2
          simp at this
        · subst h1
          intro hcon
          have : ('\'' : Char) = '.' := hcon.2
          simp at this
        · exact (List.chain'_cons'.mp h).1 y h1
    | some seg =>
      by_cases hc : c = '\''
      · rw [squashQuotes, if_pos hc]
        rw [List.chain'_cons']
        constructor
        · intro y _
          intro hcon
          have : isWordChar '?' = true := hcon.1
          simp [isWordChar] at this
        · apply ih none

          have h2 := (List.chain'_cons'.mp h).2
          have h3 := (List.chain'_append.mp h2).2.1
          exact (List.chain'_cons'.mp h3).2
      · rw [squashQuotes, if_neg hc]
        apply ih (some (seg ++ [c]))
        show List.Chain' okPair ('\'' :: ((seg ++ [c]) ++ cs))
        simpa [List.append_assoc] using h

theorem squashQuotes_no_digit (l : List Char) : ∀ st,
    (∀ c ∈ l, c.isDigit = false) →
    (∀ seg, st = some seg → ∀ c ∈ seg, c.isDigit = false) →
    ∀ c ∈ squashQuotes st l, c.isDigit = false := by
  induction l with
  | nil =>
    intro st hl hseg c hmem
    cases st with
    | none => simp [squashQuotes] at hmem
    | some seg =>
      have hmem2 : c ∈ '\'' :: seg := hmem
      rcases List.mem_cons.mp hmem2 with h1 | h1
      · rw [h1]; rfl
      · exact hseg seg rfl c h1
  | cons a cs ih =>
    intro st hl hseg c hmem
    have hlcs : ∀ x ∈ cs, x.isDigit = false :=
      fun x hx => hl x (List.mem_cons_of_mem a hx)
    cases st with
    | none =>
      by_cases ha : a = '\''
      · rw [squashQuotes, if_pos ha] at hmem
        exact ih (some []) hlcs (by intro seg hs x hx; cases hs; simp at hx) c hmem
      · rw [squashQuotes, if_neg ha] at hmem
        rcases List.mem_cons.mp hmem with h1 | h1
        · rw [h1]; exact hl a (List.mem_cons_self a cs)
        · exact ih none hlcs (by intro seg hs; cases hs) c h1
    | some seg =>
      by_cases ha : a = '\''
      · rw [squashQuotes, if_pos ha] at hmem
        rcases List.mem_cons.mp hmem with h1 | h1
        · rw [h1]; rfl
        · exact ih none hlcs (by intro seg2 hs; cases hs) c h1
      · rw [squashQuotes, if_neg ha] at hmem
        apply ih (some (seg ++ [a])) hlcs ?_ c hmem
        intro seg2 hs x hx
        cases hs
        rcases List.mem_append.mp hx with h1 | h1
        · exact hseg seg rfl x h1
        · simp at h1; rw [h1]; exact hl a (List.mem_cons_self a cs)

theorem squashQuotes_count (l : List Char) : ∀ st,
    (∀ seg, st = some seg → ∀ c ∈ seg, ¬(c = '\'')) →
    (squashQuotes st l).count '\'' ≤ 1 := by
  induction l with
  | nil =>
    intro st hseg
    cases st with
    | none => simp [squashQuotes]
    | some seg =>
      show (('\'' :: seg).count '\'') ≤ 1
      rw [List.count_cons]
      have : seg.count '\'' = 0 := by
        rw [List.count_eq_zero]
        intro hmem
        exact hseg seg rfl '\'' hmem rfl
      simp [this]
  | cons c cs ih =>
    intro st hseg
    cases st with
    | none =>
      by_cases hc : c = '\''
      · rw [squashQuotes, if_pos hc]
        exact ih (some []) (by intro seg hs x hx; cases hs; simp at hx)
      · rw [squashQuotes, if_neg hc]
        rw [List.count_cons]
        have h2 := ih none (by intro seg hs; cases hs)
        simp only [beq_iff_eq]
        rw [if_neg hc]
        omega
    | some seg =>
      by_cases hc : c = '\''
      · rw [squashQuotes, if_pos hc]
        rw [List.count_cons]
        have h2 := ih none (by intro seg2 hs; cases hs)
        have : ¬(('?' : Char) = '\'') := by decide
        simp only [beq_iff_eq]
        rw [if_neg this]
        omega
      · rw [squashQuotes, if_neg hc]
        apply ih (some (seg ++ [c]))
        intro seg2 hs x hx
        cases hs
        rcases List.mem_append.mp hx with h1 | h1
        · exact hseg seg rfl x h1
        · simp at h1; rw [h1]; exact hc

theorem squashQuotes_fix_of_no_quote (cs : List Char) : ∀ seg,
    (∀ c ∈ cs, ¬(c = '\'')) → squashQuotes (some seg) cs = '\'' :: seg ++ cs := by
  induction cs with
  | nil => intro seg _; simp [squashQuotes]
  | cons c cs' ih =>
    intro seg h
    have hc : ¬(c = '\'') := h c (List.mem_cons_self c cs')
    rw [squashQuotes, if_neg hc]
    rw [ih (seg ++ [c]) (fun x hx => h x (List.mem_cons_of_mem c hx))]
    simp

theorem squashQuotes_fix (l : List Char) (h : l.count '\'' ≤ 1) :
    squashQuotes none l = l := by
  induction l with
  | nil => rfl
  | cons c cs ih =>
    by_cases hc : c = '\''
    · rw [squashQuotes, if_pos hc]
      have hcount : cs.count '\'' = 0 := by
        subst hc
        rw [List.count_cons] at h
        simp at h
        omega
      have hnq : ∀ x ∈ cs, ¬(x = '\'') := by
        intro x hx hxq
        have := List.count_eq_zero.mp hcount
        rw [hxq] at hx
        exact this hx
      rw [squashQuotes_fix_of_no_quote cs [] hnq, hc]
      rfl
    · rw [squashQuotes, if_neg hc]
      rw [ih ?_]
      rw [List.count_cons] at h
      simp only [beq_iff_eq] at h
      rw [if_neg hc] at h
      omega

/-! ## Claim C3: idempotence of normalization -/

/-- Claim C3 counterexample: normalization is not idempotent.  On the
input `"-a.-"` the schema-prefix pass deletes `a.` and splices the two
dashes into the comment marker `--`; the second pass's comment stripping
then deletes everything, so `normalize (normalize "-a.-") = ""` while
`normalize "-a.-" = "--"`. -/
theorem C3_counterexample : normalize (normalize ("-a.-")) ≠ normalize ("-a.-") := by decide

/-- Claim C3 (amended): the query-normalization function is idempotent on
every input whose normalized form is left unchanged by the
comment-stripping / keyword-uppercasing format step.  (The three
substitution passes are idempotent on their own; only a normalized form
that the format step still alters — a spliced comment marker, or a
lowercase keyword exposed by prefix removal — breaks idempotence, as the
counterexample shows.) -/
theorem C3_normalize_idem_on_format_fixed (q : String)
    (h : fmtStrip (normalize q) = normalize q) :
    normalize (normalize q) = normalize q := by
  set o := squashQuotes none (squashDigits false (stripQual (fmtStrip q).data)) with ho
  have hnq : normalize q = String.mk o := rfl
  have hdata : (fmtStrip (normalize q)).data = o := by rw [h, hnq]
  have hchain : List.Chain' okPair o := by
    rw [ho]
    exact squashQuotes_chain _ none (squashDigits_chain _ false (stripQual_chain _))
  have hsq : stripQual o = o := stripQual_fix o hchain
  have hnd : ∀ c ∈ o, c.isDigit = false := by
    rw [ho]
    intro c hc
    apply squashQuotes_no_digit _ none ?_ ?_ c hc
    · intro x hx
      exact squashDigits_no_digit _ false x hx
    · intro seg hseg
      cases hseg
  have hdfix : squashDigits false o = o := squashDigits_fix o hnd
  have hcount : o.count '\'' ≤ 1 := by
    rw [ho]
    apply squashQuotes_count _ none
    intro seg hseg
    cases hseg
  have hqfix : squashQuotes none o = o := squashQuotes_fix o hcount
  show String.mk (squashQuotes none (squashDigits false (stripQual (fmtStrip (normalize q)).data)))
      = normalize q
  rw [hdata, hsq, hdfix, hqfix, hnq]

/-- Witness for the amended C3 at a concrete template whose normalized
form is a format fixed point. -/
theorem C3_normalize_idem_on_format_fixed_witness :
    fmtStrip (normalize normFix) = normalize normFix
    ∧ normalize (normalize normFix) = normalize normFix :=
  ⟨by decide, C3_normalize_idem_on_format_fixed normFix (by decide)⟩

/-! ## Claim C4: metadata sync -/

theorem metaKey_toMetaRow (p d e : String) (a b : ColInfo) :
    metaKey (toMetaRow p d e a) = metaKey (toMetaRow p d e b) ↔ colKey a = colKey b := by
  simp [metaKey, toMetaRow, colKey, Prod.ext_iff]

theorem ingest_fold (p d e : String) : ∀ (l : List ColInfo) (st : List MetaRow),
    (∀ c ∈ l, ∀ x ∈ st, ¬ metaKey x = metaKey (toMetaRow p d e c)) →
    (l.map colKey).Nodup →
    ingest_metadata_from_postgres p d e l st = st ++ l.map (toMetaRow p d e) := by
  intro l
  induction l with
  | nil => intro st _ _; simp [ingest_metadata_from_postgres]
  | cons c l ih =>
    intro st hdis hnd
    have hins : insertMetaRow st (toMetaRow p d e c) = st ++ [toMetaRow p d e c] := by
      unfold insertMetaRow
      rw [if_neg]
      rintro ⟨x, hx, hk⟩
      exact hdis c (List.mem_cons_self c l) x hx hk
    have hpair : (∀ x ∈ l, ¬ colKey x = colKey c) ∧ (l.map colKey).Nodup := by
      simpa using hnd
    have hnotmem : colKey c ∉ l.map colKey := by
      intro hmem
      obtain ⟨x, hx, hkx⟩ := List.mem_map.mp hmem
      exact hpair.1 x hx hkx
    have hndtail : (l.map colKey).Nodup := hpair.2
    have h2 := ih (st ++ [toMetaRow p d e c]) ?_ hndtail
    · show List.foldl (fun st c => insertMetaRow st (toMetaRow p d e c)) st (c :: l)
          = st ++ (c :: l).map (toMetaRow p d e)
      rw [List.foldl_cons, hins]
      rw [show List.foldl (fun st c => insertMetaRow st (toMetaRow p d e c))
          (st ++ [toMetaRow p d e c]) l
          = ingest_metadata_from_postgres p d e l (st ++ [toMetaRow p d e c]) from rfl]
      rw [h2]
      simp
    · intro c' hc' x hx
      rcases List.mem_append.mp hx with h1 | h1
      · exact hdis c' (List.mem_cons_of_mem c hc') x h1
      · simp at h1
        subst h1
        intro hk
        apply hnotmem
        have : colKey c = colKey c' := (metaKey_toMetaRow p d e c c').mp hk
        rw [this]
        exact List.mem_map_of_mem colKey hc'

/-- Claim C4: after the sync step of `auto_ingest_pipeline` (clear the
`tables_metadata` store, then re-ingest from the live catalog), the
metadata snapshot is exactly the introspected column set for this
environment — it set-equals the introspection result, carries no duplicate
uniqueness keys, and holds no leftover row — provided the live catalog
itself has no duplicate (schema, table, column) triple. -/
theorem C4_sync_replaces_store (p d e : String) (introspected : List ColInfo)
    (hnd : (introspected.map colKey).Nodup) :
    auto_sync_metadata p d e introspected = introspected.map (toMetaRow p d e)
    ∧ ((auto_sync_metadata p d e introspected).map metaKey).Nodup
    ∧ ∀ r, r ∈ auto_sync_metadata p d e introspected ↔ r ∈ introspected.map (toMetaRow p d e) := by
  have heq : auto_sync_metadata p d e introspected = introspected.map (toMetaRow p d e) := by
    unfold auto_sync_metadata
    rw [ingest_fold p d e introspected [] (by simp) hnd]
    simp
  refine ⟨heq, ?_, fun r => by rw [heq]⟩
  rw [heq, List.map_map]
  have hcomp : introspected.map (metaKey ∘ toMetaRow p d e)
      = (introspected.map colKey).map
          (fun k : String × String × String => (p, d, e, k.1, k.2.1, k.2.2)) := by
    rw [List.map_map]
    rfl
  rw [hcomp]
  have hfinj : Function.Injective
      (fun k : String × String × String => (p, d, e, k.1, k.2.1, k.2.2)) := by
    intro x y hxy
    obtain ⟨x1, x2, x3⟩ := x
    obtain ⟨y1, y2, y3⟩ := y
    simp at hxy
    simp [hxy.1, hxy.2.1, hxy.2.2]
  exact hnd.map hfinj

/-- Witness for C4 at the Scenario A fixture
`public.items(id int, name text not null)`. -/
theorem C4_sync_replaces_store_witness :
    auto_sync_metadata ("eGP") ("egp_db") ("dev") itemsCols
        = itemsCols.map (toMetaRow ("eGP") ("egp_db") ("dev"))
    ∧ ((auto_sync_metadata ("eGP") ("egp_db") ("dev") itemsCols).map metaKey).Nodup
    ∧ ∀ r, r ∈ auto_sync_metadata ("eGP") ("egp_db") ("dev") itemsCols
        ↔ r ∈ itemsCols.map (toMetaRow ("eGP") ("egp_db") ("dev")) :=
  C4_sync_replaces_store ("eGP") ("egp_db") ("dev") itemsCols (by decide)

/-! ## Claims C5 and C6: evidence collection -/

/-- Claim C5: every per-item failure of evidence collection (anchor table
not found in any schema, query id not present, plan-only check failing)
leaves the whole relational state — in particular `execution_evidence` —
unchanged and raises nothing, so a failing query id in a batch run
contributes nothing and the batch continues exactly as if the id had been
skipped. -/
theorem C5_evidence_failure_isolation (ora : EvOracle) (st : EvState) (k : Nat) (ids : List Nat)
    (h : collectFails ora st k = true) :
    generate_evidence ora st k = st
    ∧ (generate_evidence ora st k).evidence = st.evidence
    ∧ runEvidenceBatch ora st (k :: ids) = runEvidenceBatch ora st ids := by
  have hgen : generate_evidence ora st k = st := by
    by_cases hs : ora.schemaFor = none
    · simp [generate_evidence, hs]
    · obtain ⟨s, hs2⟩ := Option.ne_none_iff_exists'.mp hs
      by_cases hl : lookupQuery st k = none
      · simp [generate_evidence, hs2, hl]
      · obtain ⟨tmpl, hl2⟩ := Option.ne_none_iff_exists'.mp hl
        cases hp : ora.explainPlan (substPlaceholders tmpl) with
        | error e => simp [generate_evidence, hs2, hl2, hp]
        | ok plan =>
          exfalso
          simp [collectFails, hs2, hl2, hp] at h
  refine ⟨hgen, by rw [hgen], ?_⟩
  show List.foldl (generate_evidence ora) st (k :: ids)
      = List.foldl (generate_evidence ora) st ids
  rw [List.foldl_cons, hgen]

/-- Witness for C5: a missing anchor table at query id 1, followed by id 2. -/
theorem C5_evidence_failure_isolation_witness :
    generate_evidence evOracleNoSchema evStateOne 1 = evStateOne
    ∧ (generate_evidence evOracleNoSchema evStateOne 1).evidence = evStateOne.evidence
    ∧ runEvidenceBatch evOracleNoSchema evStateOne (1 :: [2])
        = runEvidenceBatch evOracleNoSchema evStateOne [2] :=
  C5_evidence_failure_isolation evOracleNoSchema evStateOne 1 [2] (by rfl)

theorem detectAntiPatterns_eq (plan : List String) :
    detectAntiPatterns plan
      = (plan.filter seqScanIn).map (fun _ => ("sequential_scan")) := by
  have haux : ∀ (l : List String) (acc : List String),
      l.foldl (fun acc row => if seqScanIn row then acc ++ [("sequential_scan")] else acc) acc
        = acc ++ (l.filter seqScanIn).map (fun _ => ("sequential_scan")) := by
    intro l
    induction l with
    | nil => intro acc; simp
    | cons r rs ih =>
      intro acc
      by_cases hr : seqScanIn r = true
      · simp [List.foldl_cons, hr, ih, List.filter_cons]
      · simp [List.foldl_cons, hr, ih, List.filter_cons]
  simpa [detectAntiPatterns] using haux plan []

/-- Claim C6 counterexample: the recorded anti-pattern tags are not a
duplicate-free set.  A plan with two rows carrying the sequential-scan
marker yields the tag twice in the persisted evidence row. -/
theorem C6_counterexample :
    (generate_evidence evOracleSeq evStateOne 1).evidence.map (fun r => r.anti_patterns)
        = [[("sequential_scan"), ("sequential_scan")]]
    ∧ ¬ ([("sequential_scan"), ("sequential_scan")] : List String).Nodup := by
  constructor
  · decide
  · decide

/-- Claim C6 (amended): the anti-pattern tags recorded in the persisted
`ExecutionEvidence` row are one `sequential_scan` entry per plan row
containing the full-sequential-scan marker (so duplicates appear when
several rows match); the tag is present exactly when some plan row
carries the marker, and the tag list is empty exactly when no row does. -/
theorem C6_antipattern_tags (ora : EvOracle) (st : EvState) (k : Nat)
    (s tmpl : String) (plan : List String)
    (h1 : ora.schemaFor = some s) (h2 : lookupQuery st k = some tmpl)
    (h3 : ora.explainPlan (substPlaceholders tmpl) = .ok plan) :
    (generate_evidence ora st k).evidence
      = st.evidence
          ++ [⟨k, plan, (plan.filter seqScanIn).map (fun _ => ("sequential_scan"))⟩]
    ∧ (("sequential_scan") ∈ detectAntiPatterns plan ↔ ∃ row ∈ plan, seqScanIn row = true)
    ∧ (detectAntiPatterns plan = [] ↔ ∀ row ∈ plan, seqScanIn row = false) := by
  refine ⟨?_, ?_, ?_⟩
  · simp [generate_evidence, h1, h2, h3, detectAntiPatterns_eq]
  · rw [detectAntiPatterns_eq]
    simp [List.mem_filter]
  · rw [detectAntiPatterns_eq]
    simp [List.filter_eq_nil_iff]

/-- Witness for the amended C6 at the two-sequential-scan fixture. -/
theorem C6_antipattern_tags_witness :
    (generate_evidence evOracleSeq evStateOne 1).evidence
      = evStateOne.evidence
          ++ [⟨1, [("Seq Scan on tenders  (cost=0.00..1.10 rows=10 width=4)"),
                   ("Seq Scan on bids  (cost=0.00..2.20 rows=20 width=8)")],
               (([("Seq Scan on tenders  (cost=0.00..1.10 rows=10 width=4)"),
                  ("Seq Scan on bids  (cost=0.00..2.20 rows=20 width=8)")].filter seqScanIn).map
                  (fun _ => ("sequential_scan")))⟩]
    ∧ (("sequential_scan") ∈ detectAntiPatterns
          [("Seq Scan on tenders  (cost=0.00..1.10 rows=10 width=4)"),
           ("Seq Scan on bids  (cost=0.00..2.20 rows=20 width=8)")]
        ↔ ∃ row ∈ [("Seq Scan on tenders  (cost=0.00..1.10 rows=10 width=4)"),
                   ("Seq Scan on bids  (cost=0.00..2.20 rows=20 width=8)")], seqScanIn row = true)
    ∧ (detectAntiPatterns
          [("Seq Scan on tenders  (cost=0.00..1.10 rows=10 width=4)"),
           ("Seq Scan on bids  (cost=0.00..2.20 rows=20 width=8)")] = []
        ↔ ∀ row ∈ [("Seq Scan on tenders  (cost=0.00..1.10 rows=10 width=4)"),
                   ("Seq Scan on bids  (cost=0.00..2.20 rows=20 width=8)")], seqScanIn row = false) :=
  C6_antipattern_tags evOracleSeq evStateOne 1 ("public")
    ("SELECT * FROM tenders WHERE status = ?") _ (by rfl) (by rfl) (by rfl)

/-! ## Claims C7 and C10: vector-store ingestion -/

theorem upsert_of_map_embed (l : List String) : upsertCalls (l.map QCall.embed) = [] := by
  induction l with
  | nil => rfl
  | cons x xs ih => simp [upsertCalls, List.filterMap_cons]

/-- Claim C7: indexing a chunk list with `N` non-empty-content chunks and
`M` empty ones constructs and upserts exactly the `N` valid points in one
batch call, and performs no upsert call at all when zero valid points
remain. -/
theorem C7_chunk_filtering (chunks : List Chunk) :
    upsertCalls (ingest_to_qdrant chunks)
      = (if validContents chunks = [] then [] else [validContents chunks])
    ∧ (validContents chunks).length
        = chunks.countP (fun c => !(c.content_text == (""))) := by
  constructor
  · by_cases hc : chunks = []
    · subst hc
      simp [ingest_to_qdrant, validContents, upsertCalls]
    · rw [ingest_to_qdrant, if_neg hc]
      by_cases hv : validContents chunks = []
      · rw [if_pos hv, if_pos hv, hv]
        simp [upsertCalls, List.filterMap_cons]
      · rw [if_neg hv, if_neg hv]
        simp [upsertCalls, List.filterMap_cons, List.filterMap_append, upsert_of_map_embed]
  · unfold validContents
    rw [List.length_map]
    simp [List.countP_eq_length_filter]

/-- Witness for C7 at a three-chunk list with one empty chunk. -/
theorem C7_chunk_filtering_witness :
    upsertCalls (ingest_to_qdrant chunksWitness)
      = (if validContents chunksWitness = [] then [] else [validContents chunksWitness])
    ∧ (validContents chunksWitness).length
        = chunksWitness.countP (fun c => !(c.content_text == (""))) :=
  C7_chunk_filtering chunksWitness

/-- Claim C10: `ingest_to_qdrant` checks/creates the vector-store
collection exactly when the chunk list is non-empty; an empty list
returns with no external contact at all (no embedding, no store call),
while a non-empty list whose chunks all have empty content still ensures
the collection and then aborts with no embedding and no upsert. -/
theorem C10_collection_touch_iff_nonempty (chunks : List Chunk) :
    (QCall.ensure ∈ ingest_to_qdrant chunks ↔ chunks ≠ [])
    ∧ (chunks = [] → ingest_to_qdrant chunks = [])
    ∧ (chunks ≠ [] → validContents chunks = [] → ingest_to_qdrant chunks = [QCall.ensure]) := by
  refine ⟨⟨?_, ?_⟩, ?_, ?_⟩
  · intro hmem hnil
    subst hnil
    simp [ingest_to_qdrant] at hmem
  · intro hne
    rw [ingest_to_qdrant, if_neg hne]
    exact List.mem_append.mpr (.inl (List.mem_cons_self _ _))
  · intro hnil
    subst hnil
    rfl
  · intro hne hv
    rw [ingest_to_qdrant, if_neg hne, hv]
    simp

/-- Witness for C10 at a non-empty all-empty-content chunk list. -/
theorem C10_collection_touch_iff_nonempty_witness :
    (QCall.ensure ∈ ingest_to_qdrant chunksAllEmpty ↔ chunksAllEmpty ≠ [])
    ∧ (chunksAllEmpty = [] → ingest_to_qdrant chunksAllEmpty = [])
    ∧ (chunksAllEmpty ≠ [] → validContents chunksAllEmpty = []
        → ingest_to_qdrant chunksAllEmpty = [QCall.ensure]) :=
  C10_collection_touch_iff_nonempty chunksAllEmpty

end DBAgent
